import Mathlib

/-!
Shallow embedding of the chat-backend core: the group-membership state
machine (`GroupsService`), its cache-backed access check, the controller
query normalization, and the cursor-paginated message listing.

Modelling conventions:
* Database tables are Lean lists; a Prisma `findMany` with a `where`
  clause is `List.filter`, `findFirst`/`findUnique` is `List.find?`,
  and an `orderBy` is a sort of the queried rows.
* A `GroupMember` row is keyed by its `(groupId, userId)` pair, which
  carries a uniqueness constraint in the schema; the surrogate row id is
  therefore omitted and every source update/delete that addresses a row
  by id is modelled as addressing it by `userId` within the group.
* Timestamps are naturals; string ids stay strings.
* Thrown `HttpException`s become the `Err` sum: `NotFoundException` is
  `Err.notFound`, `ForbiddenException` (permission denied) is
  `Err.permissionDenied`, `BadRequestException` (invalid argument) is
  `Err.invalidArgument`, `ConflictException` is `Err.conflict`.
  A service method returns `Except Err α`: an error result means the
  request was rejected before (or instead of) any state mutation.
-/

namespace Chat

/-- Member role, stored as the strings `admin` / `member` in the source. -/
inductive Role where
  | admin
  | member
deriving DecidableEq, Repr

/-- The string form of a role, used inside result messages. -/
def Role.str : Role → String
  | .admin => "admin"
  | .member => "member"

/-- A `GroupMember` row: `(userId, role, joinedAt)` for one group.
The surrogate row id is omitted; rows are keyed by `userId` (unique per
group by the schema's `(groupId, userId)` constraint). -/
structure Member where
  userId : String
  role : Role
  joinedAt : Nat
deriving DecidableEq, Repr

/-- A `User` row, reduced to the fields the group operations consult. -/
structure Account where
  id : String
  isDeleted : Bool
deriving DecidableEq, Repr

/-- A `Group` row together with its owned `GroupMember` rows. -/
structure Grp where
  id : String
  name : String
  createdById : String
  members : List Member
deriving DecidableEq, Repr

/-- The error taxonomy surfaced by the services. -/
inductive Err where
  | notFound (msg : String)
  | permissionDenied (msg : String)
  | invalidArgument (msg : String)
  | conflict (msg : String)
deriving DecidableEq, Repr

/-- One cached boolean membership fact, keyed by `(userId, groupId)`.
Only the boolean is cached, never the role; the TTL is not modelled
(theorems quantify over arbitrary cache contents instead). -/
structure CacheEntry where
  userId : String
  groupId : String
  isMember : Bool
deriving DecidableEq, Repr

/-- The membership cache: an association list of entries. -/
abbrev Cache := List CacheEntry

/-- `CacheService.getGroupMembership`: `true`/`false` when cached,
`none` on a miss. -/
def cacheGet (c : Cache) (userId groupId : String) : Option Bool :=
  (c.find? (fun e => decide (e.userId = userId ∧ e.groupId = groupId))).map (·.isMember)

/-- `CacheService.setGroupMembership`: record the boolean fact. -/
def cacheSet (c : Cache) (userId groupId : String) (v : Bool) : Cache :=
  { userId := userId, groupId := groupId, isMember := v } :: c

/-- `GroupsService.validateGroupAccess`: cache-first membership check.
On a hit saying "not a member" it throws at once; on a hit saying
"member" with `requireAdmin` it still queries the store for the role
(only the boolean is cached); on a miss it queries the store, caches the
boolean, and then applies the membership/role checks. Returns the
possibly-extended cache. -/
def validateGroupAccess (cache : Cache) (g : Grp) (userId : String)
    (requireAdmin : Bool) : Except Err Cache :=
  match cacheGet cache userId g.id with
  | some cached =>
    if cached = false then
      .error (.permissionDenied "You are not a member of this group")
    else if requireAdmin then
      match g.members.find? (fun m => decide (m.userId = userId)) with
      | none => .error (.permissionDenied "Only group admins can perform this action")
      | some m =>
        if m.role = Role.admin then .ok cache
        else .error (.permissionDenied "Only group admins can perform this action")
    else .ok cache
  | none =>
    match g.members.find? (fun m => decide (m.userId = userId)) with
    | none =>
      -- the source also caches `false` before throwing; an error result
      -- drops the modelled cache, which no claim observes
      .error (.permissionDenied "You are not a member of this group")
    | some m =>
      if requireAdmin ∧ m.role ≠ Role.admin then
        .error (.permissionDenied "Only group admins can perform this action")
      else .ok (cacheSet cache userId g.id true)

/-- The membership row inserted for a fresh plain member. -/
def newMemberRow (uid : String) (role : Role) (now : Nat) : Member :=
  { userId := uid, role := role, joinedAt := now }

/-- `GroupsService.create`: validates that every id in `memberIds` is an
existing, non-deleted user (by comparing the number of matching user
rows against the raw length of `memberIds`), then creates the group with
the creator as `admin` and the other listed users as `member`s; a listed
id equal to the creator's is filtered out rather than inserted twice.
`groupId` and `now` stand for the generated row id and the insertion
timestamp. -/
def createGroup (userId : String) (name : String) (memberIds : List String)
    (users : List Account) (groupId : String) (now : Nat) : Except Err Grp :=
  let matched := users.filter (fun u => decide (u.id ∈ memberIds ∧ u.isDeleted = false))
  if matched.length ≠ memberIds.length then
    .error (.invalidArgument "One or more user IDs are invalid")
  else
    let rows := newMemberRow userId Role.admin now ::
      (memberIds.filter (fun i => decide (i ≠ userId))).map
        (fun i => newMemberRow i Role.member now)
    .ok { id := groupId, name := name, createdById := userId, members := rows }

/-- `GroupsService.addMembers`: admin gate via `validateGroupAccess`,
then target-user validation, then the already-member conflict check
(naming every conflicting id), then a single `createMany` inserting all
targets with role `member` and `joinedAt = now`. On an error the group
is untouched; cache invalidation side effects on failure paths are not
tracked (they affect no claim). -/
def addMembers (cache : Cache) (users : List Account) (now : Nat)
    (userId : String) (g : Grp) (userIds : List String) :
    Except Err (Grp × Cache) :=
  match validateGroupAccess cache g userId true with
  | .error e => .error e
  | .ok cache1 =>
    let matched := users.filter (fun u => decide (u.id ∈ userIds ∧ u.isDeleted = false))
    if matched.length ≠ userIds.length then
      .error (.invalidArgument "One or more user IDs are invalid")
    else
      let existingMembers := g.members.filter (fun m => decide (m.userId ∈ userIds))
      if existingMembers.length > 0 then
        .error (.conflict ("Users " ++ String.intercalate ", " (existingMembers.map (·.userId)) ++
          " are already members of this group"))
      else
        let g1 := { g with
          members := g.members ++ userIds.map (fun uid => newMemberRow uid Role.member now) }
        .ok (g1, cache1)

/-- The `orderBy joinedAt asc` comparison used by `removeMember`. -/
def byJoined (a b : Member) : Prop := a.joinedAt ≤ b.joinedAt

instance : DecidableRel byJoined := fun a b => Nat.decLe a.joinedAt b.joinedAt

instance : IsTotal Member byJoined := ⟨fun a b => Nat.le_total a.joinedAt b.joinedAt⟩

instance : IsTrans Member byJoined := ⟨fun _ _ _ h1 h2 => Nat.le_trans h1 h2⟩

/-- Promotion of the row holding `uid` to `admin` (the `update` half of
the remove-last-admin transaction). -/
def promoteRow (uid : String) (m : Member) : Member :=
  if m.userId = uid then { m with role := Role.admin } else m

/-- `GroupsService.removeMember`: loads the members ordered by
`joinedAt` ascending, checks requester membership, target membership,
the creator rule, and the admins-remove-others rule; then, if the target
is the sole admin, finds the oldest remaining plain member and applies
promotion + removal in one transaction (or refuses when no candidate
exists); otherwise it just deletes the target's row. -/
def removeMember (g : Grp) (userId memberUserId : String) :
    Except Err (Grp × String) :=
  let ms := List.insertionSort byJoined g.members
  match ms.find? (fun m => decide (m.userId = userId)) with
  | none => .error (.permissionDenied "You are not a member of this group")
  | some requesterMember =>
    match ms.find? (fun m => decide (m.userId = memberUserId)) with
    | none => .error (.notFound "User is not a member of this group")
    | some targetMember =>
      if memberUserId = g.createdById then
        .error (.permissionDenied "Cannot remove the group creator")
      else if userId ≠ memberUserId ∧ requesterMember.role ≠ Role.admin then
        .error (.permissionDenied "Only admins can remove other members")
      else
        let admins := ms.filter (fun m => decide (m.role = Role.admin))
        if targetMember.role = Role.admin ∧ admins.length = 1 then
          match ms.find? (fun m => decide (m.role = Role.member ∧ m.userId ≠ memberUserId)) with
          | none =>
            .error (.permissionDenied "Cannot remove the last admin. Group must have at least one admin.")
          | some oldestMember =>
            let g1 := { g with
              members := (ms.map (promoteRow oldestMember.userId)).filter
                (fun m => decide (m.userId ≠ targetMember.userId)) }
            .ok (g1, "Member removed successfully. " ++ oldestMember.userId ++
              " has been promoted to admin.")
        else
          let g1 := { g with
            members := ms.filter (fun m => decide (m.userId ≠ targetMember.userId)) }
          .ok (g1, "Member removed successfully")

/-- Role update of the row holding `uid` (the `update` of
`updateMemberRole`). -/
def setRoleRow (uid : String) (newRole : Role) (m : Member) : Member :=
  if m.userId = uid then { m with role := newRole } else m

/-- `GroupsService.updateMemberRole`: requester must be an admin member,
target must be a member; setting the role the target already holds is a
no-op success with a distinct message; demoting the sole admin is
refused; otherwise the target row's role is updated. -/
def updateMemberRole (g : Grp) (userId memberUserId : String) (newRole : Role) :
    Except Err (Grp × String) :=
  match g.members.find? (fun m => decide (m.userId = userId)) with
  | none => .error (.permissionDenied "Only group admins can change member roles")
  | some requesterMember =>
    if requesterMember.role ≠ Role.admin then
      .error (.permissionDenied "Only group admins can change member roles")
    else
      match g.members.find? (fun m => decide (m.userId = memberUserId)) with
      | none => .error (.notFound "User is not a member of this group")
      | some targetMember =>
        if targetMember.role = newRole then
          .ok (g, "User is already a " ++ newRole.str)
        else if targetMember.role = Role.admin ∧ newRole = Role.member ∧
            (g.members.filter (fun m => decide (m.role = Role.admin))).length = 1 then
          .error (.permissionDenied "Cannot demote the last admin. Group must have at least one admin.")
        else
          let g1 := { g with members := g.members.map (setRoleRow memberUserId newRole) }
          .ok (g1, "Member " ++ (if newRole = Role.admin then "promoted to" else "demoted to") ++
            " " ++ newRole.str ++ " successfully")

/-- One successful membership mutation of a group. The `husers`
hypothesis records the users table's primary-key uniqueness, which the
database enforces. -/
inductive Step : Grp → Grp → Prop
  | add (cache : Cache) (users : List Account) (now : Nat) (actingId : String)
      (userIds : List String) (g g1 : Grp) (c1 : Cache)
      (husers : (users.map (·.id)).Nodup)
      (h : addMembers cache users now actingId g userIds = .ok (g1, c1)) :
      Step g g1
  | remove (actingId targetId : String) (g g1 : Grp) (msg : String)
      (h : removeMember g actingId targetId = .ok (g1, msg)) :
      Step g g1
  | role (actingId targetId : String) (newRole : Role) (g g1 : Grp) (msg : String)
      (h : updateMemberRole g actingId targetId newRole = .ok (g1, msg)) :
      Step g g1

/-- Groups reachable from a successful `createGroup` by successful
membership mutations. -/
inductive Reachable : Grp → Prop
  | created (creatorId name : String) (memberIds : List String)
      (users : List Account) (groupId : String) (now : Nat) (g : Grp)
      (husers : (users.map (·.id)).Nodup)
      (h : createGroup creatorId name memberIds users groupId now = .ok g) :
      Reachable g
  | step (g g1 : Grp) (hg : Reachable g) (hs : Step g g1) : Reachable g1

/-- The group has at least one member whose role is `admin`. -/
def hasAdmin (g : Grp) : Prop := ∃ m ∈ g.members, m.role = Role.admin

/-- The group's creator appears in the member set. -/
def creatorPresent (g : Grp) : Prop := ∃ m ∈ g.members, m.userId = g.createdById

/-- Well-formedness maintained by the state machine: one membership row
per user, at least one admin, and the creator present. -/
def goodGroup (g : Grp) : Prop :=
  (g.members.map (·.userId)).Nodup ∧ hasAdmin g ∧ creatorPresent g

/-- A message row, reduced to the fields the listing consults. -/
structure Msg where
  id : String
  senderId : String
  receiverId : String
  content : String
  createdAt : Nat
deriving DecidableEq, Repr

/-- The listing sort direction. -/
inductive SortDir where
  | asc
  | desc
deriving DecidableEq, Repr

/-- Non-strict compound-key comparison `(createdAt, id)`, ascending. -/
def keyLe (a b : Msg) : Prop :=
  a.createdAt < b.createdAt ∨ (a.createdAt = b.createdAt ∧ a.id ≤ b.id)

instance : DecidableRel keyLe := fun a b =>
  inferInstanceAs (Decidable (a.createdAt < b.createdAt ∨ (a.createdAt = b.createdAt ∧ a.id ≤ b.id)))

/-- The `orderBy [createdAt sort, id sort]` comparison: the direction
applies uniformly to both components. -/
def msgRel : SortDir → Msg → Msg → Prop
  | .asc => keyLe
  | .desc => fun a b => keyLe b a

instance : (s : SortDir) → DecidableRel (msgRel s)
  | .asc => fun a b => inferInstanceAs (Decidable (keyLe a b))
  | .desc => fun a b => inferInstanceAs (Decidable (keyLe b a))

instance : IsTotal Msg keyLe where
  total a b := by
    rcases Nat.lt_trichotomy a.createdAt b.createdAt with h | h | h
    · exact Or.inl (Or.inl h)
    · rcases le_total a.id b.id with hid | hid
      · exact Or.inl (Or.inr ⟨h, hid⟩)
      · exact Or.inr (Or.inr ⟨h.symm, hid⟩)
    · exact Or.inr (Or.inl h)

instance : IsTrans Msg keyLe where
  trans a b c hab hbc := by
    rcases hab with h | ⟨he, hid⟩
    · rcases hbc with h2 | ⟨he2, _⟩
      · exact Or.inl (h.trans h2)
      · exact Or.inl (he2 ▸ h)
    · rcases hbc with h2 | ⟨he2, hid2⟩
      · exact Or.inl (he ▸ h2)
      · exact Or.inr ⟨he.trans he2, hid.trans hid2⟩

instance : (s : SortDir) → IsTotal Msg (msgRel s)
  | .asc => inferInstanceAs (IsTotal Msg keyLe)
  | .desc => ⟨fun a b => show keyLe b a ∨ keyLe a b from IsTotal.total (r := keyLe) b a⟩

instance : (s : SortDir) → IsTrans Msg (msgRel s)
  | .asc => inferInstanceAs (IsTrans Msg keyLe)
  | .desc => ⟨fun a b c hab hbc =>
      show keyLe c a from IsTrans.trans (r := keyLe) c b a hbc hab⟩

/-- The strict compound order in the direction of `s`: the order in
which a page lists its rows (earlier rows strictly precede later ones,
so the listing is deterministic even when timestamps collide). -/
def strictKey (s : SortDir) (a b : Msg) : Prop :=
  match s with
  | .desc => b.createdAt < a.createdAt ∨ (b.createdAt = a.createdAt ∧ b.id < a.id)
  | .asc => a.createdAt < b.createdAt ∨ (a.createdAt = b.createdAt ∧ a.id < b.id)

instance : (s : SortDir) → DecidableRel (strictKey s)
  | .asc => fun _ _ => inferInstanceAs (Decidable (_ ∨ _))
  | .desc => fun _ _ => inferInstanceAs (Decidable (_ ∨ _))

/-- The direct-message scope: the user is sender or receiver. -/
def inScope (userId : String) (m : Msg) : Prop :=
  m.senderId = userId ∨ m.receiverId = userId

instance (userId : String) : DecidablePred (inScope userId) := fun _ =>
  inferInstanceAs (Decidable (_ ∨ _))

/-- The decoded-cursor window: for `desc`, strictly before the cursor
position `createdAt < cursorTs OR (createdAt = cursorTs AND id < cursorId)`;
for `asc` the mirrored strictly-greater condition. -/
def cursorCond (sort : SortDir) (cursorTs : Nat) (cursorId : String) (m : Msg) : Prop :=
  match sort with
  | .desc => m.createdAt < cursorTs ∨ (m.createdAt = cursorTs ∧ m.id < cursorId)
  | .asc => cursorTs < m.createdAt ∨ (m.createdAt = cursorTs ∧ cursorId < m.id)

instance (sort : SortDir) (cursorTs : Nat) (cursorId : String) :
    DecidablePred (cursorCond sort cursorTs cursorId) := fun m => by
  cases sort <;> exact inferInstanceAs (Decidable (_ ∨ _))

/-- The cursor emitted for a row: its timestamp and id joined by `_`. -/
def encodeCursor (m : Msg) : String := toString m.createdAt ++ "_" ++ m.id

/-- `CursorPaginationMeta`. -/
structure PageMeta where
  count : Nat
  limit : Nat
  nextCursor : Option String
  prevCursor : Option String
  hasMore : Bool
deriving DecidableEq, Repr

/-- `PaginatedMessagesDto`. -/
structure PaginatedMessages where
  data : List Msg
  meta : PageMeta
deriving DecidableEq, Repr

/-- The rows of `db` selected by the `where` clause of the listing:
in scope for the user and, when a decoded cursor `(cursorTs, cursorId)`
is supplied, inside the cursor window for the sort direction. -/
def matchingMsgs (db : List Msg) (userId : String)
    (cursor : Option (Nat × String)) (sort : SortDir) : List Msg :=
  let scopedRows := db.filter (fun m => decide (inScope userId m))
  match cursor with
  | none => scopedRows
  | some (cts, cid) => scopedRows.filter (fun m => decide (cursorCond sort cts cid m))

/-- Modelled from the spec: the cursor-based `MessagesService.findAll`.
The implementation file is absent from the sources (only its unit
tests, its DTO `CursorPaginationMeta`, and its controller callers are
present); this definition follows the spec's pagination contract, which
the unit tests corroborate: filter the user's messages by the cursor
window, order by the compound key `(createdAt, id)` with the sort
direction applied to both components, fetch `limit + 1` rows, set
`hasMore` exactly when `limit + 1` rows come back and drop the extra
row, derive `nextCursor` from the last retained row (`none` when
`hasMore` is false) and `prevCursor` from the first retained row. -/
def findAll (db : List Msg) (userId : String) (cursor : Option (Nat × String))
    (limit : Nat) (sort : SortDir) : PaginatedMessages :=
  let rows := (List.insertionSort (msgRel sort) (matchingMsgs db userId cursor sort)).take (limit + 1)
  let hasMore := decide (rows.length = limit + 1)
  let data := rows.take limit
  let meta : PageMeta :=
    { count := data.length, limit := limit,
      nextCursor := if hasMore then data.getLast?.map encodeCursor else none,
      prevCursor := data.head?.map encodeCursor,
      hasMore := hasMore }
  { data := data, meta := meta }

/-- `MessagesController.findAll` / `GroupsController.getGroupMessages`
limit normalization `limit ? Math.max(1, Math.min(limit, 100)) : 20`,
over integer inputs: a supplied `0` is falsy in JavaScript, so it takes
the `: 20` branch exactly like an absent limit. -/
def effectiveLimit (limit : Option Int) : Int :=
  match limit with
  | none => 20
  | some n => if n = 0 then 20 else max 1 (min n 100)

/-- The controllers' sort normalization
`sort === 'asc' || sort === 'desc' ? sort : 'desc'`. -/
def effectiveSort (sort : Option String) : String :=
  match sort with
  | none => "desc"
  | some s => if s = "asc" ∨ s = "desc" then s else "desc"



/-- In a `Pairwise R` list, the first element satisfying `p` relates to
every element satisfying `p`. -/
theorem find_min_of_pairwise {α : Type} {R : α → α → Prop} {p : α → Bool}
    {l : List α} {a : α} (hp : List.Pairwise R l) (h : l.find? p = some a) :
    ∀ b ∈ l, p b = true → a = b ∨ R a b := by
  induction l with
  | nil => simp at h
  | cons x xs ih =>
    rcases List.pairwise_cons.mp hp with ⟨hx, hxs⟩
    by_cases hpx : p x = true
    · rw [List.find?_cons_of_pos _ hpx] at h
      injection h with h
      subst h
      intro b hb _
      rcases List.mem_cons.mp hb with hb | hb
      · exact Or.inl hb.symm
      · exact Or.inr (hx b hb)
    · rw [List.find?_cons_of_neg _ (by simpa using hpx)] at h
      intro b hb hpb
      rcases List.mem_cons.mp hb with hb | hb
      · exact absurd (hb ▸ hpb) hpx
      · exact ih hxs h b hb hpb

/-- A list that is not duplicate-free strictly shrinks under `dedup`. -/
theorem dedup_length_lt_of_not_nodup {l : List String} (h : ¬ l.Nodup) :
    l.dedup.length < l.length := by
  refine lt_of_le_of_ne l.dedup_sublist.length_le (fun he => ?_)
  exact h (List.dedup_eq_self.mp (l.dedup_sublist.eq_of_length he))

/-- With unique user ids, the rows matched by an `id IN ids` query are
at most the distinct ids. -/
theorem matched_length_le_dedup {users : List Account} {ids : List String}
    (hu : (users.map (·.id)).Nodup) :
    (users.filter (fun u => decide (u.id ∈ ids ∧ u.isDeleted = false))).length ≤
      ids.dedup.length := by
  set f := users.filter (fun u => decide (u.id ∈ ids ∧ u.isDeleted = false)) with hf
  have hsub : (f.map (·.id)).Nodup :=
    ((List.filter_sublist users).map (·.id)).nodup hu
  have hss : (f.map (·.id)) ⊆ ids.dedup := by
    intro x hx
    rcases List.mem_map.mp hx with ⟨u, hu1, hu2⟩
    rcases (by simpa using (List.mem_filter.mp hu1).2 : u.id ∈ ids ∧ u.isDeleted = false) with ⟨h1, _⟩
    exact List.mem_dedup.mpr (hu2 ▸ h1)
  calc f.length = (f.map (·.id)).length := (List.length_map _ _).symm
    _ ≤ ids.dedup.length := (hsub.subperm hss).length_le

/-- If the matched-user count equals the raw id-list length (the
validation that `create`/`addMembers` perform), the id list had no
duplicates. -/
theorem ids_nodup_of_matched_length {users : List Account} {ids : List String}
    (hu : (users.map (·.id)).Nodup)
    (h : (users.filter (fun u => decide (u.id ∈ ids ∧ u.isDeleted = false))).length = ids.length) :
    ids.Nodup := by
  by_contra hn
  have h1 := @matched_length_le_dedup users ids hu
  have h2 := dedup_length_lt_of_not_nodup hn
  rw [h] at h1
  exact absurd (lt_of_le_of_lt h1 h2) (lt_irrefl _)

/-- When every id resolves to a distinct existing non-deleted user, the
matched-user count equals the id count. -/
theorem matched_length_eq {users : List Account} {ids : List String}
    (hu : (users.map (·.id)).Nodup) (hids : ids.Nodup)
    (hvalid : ∀ x ∈ ids, ∃ u ∈ users, u.id = x ∧ u.isDeleted = false) :
    (users.filter (fun u => decide (u.id ∈ ids ∧ u.isDeleted = false))).length = ids.length := by
  set f := users.filter (fun u => decide (u.id ∈ ids ∧ u.isDeleted = false)) with hf
  have hle : f.length ≤ ids.length := by
    have h1 := @matched_length_le_dedup users ids hu
    have h2 := ids.dedup_sublist.length_le
    rw [← hf] at h1
    omega
  have hge : ids.length ≤ f.length := by
    have hss : ids ⊆ f.map (·.id) := by
      intro x hx
      rcases hvalid x hx with ⟨u, hu1, hu2, hu3⟩
      have : u ∈ f := List.mem_filter.mpr ⟨hu1, by simp [hu2 ▸ hx, hu3]⟩
      exact List.mem_map.mpr ⟨u, this, hu2⟩
    have := (hids.subperm hss).length_le
    simpa using this
  omega

/-- A duplicate-free list of length other than one containing `x` also
contains an element different from `x`. -/
theorem exists_ne_of_length_ne_one {α : Type} {l : List α} {x : α}
    (hn : l.Nodup) (hx : x ∈ l) (hlen : l.length ≠ 1) : ∃ y ∈ l, y ≠ x := by
  by_contra hall
  push_neg at hall
  have hss : l ⊆ [x] := fun a ha => by simp [hall a ha]
  have h1 : l.length ≤ 1 := by simpa using (hn.subperm hss).length_le
  have h2 : 0 < l.length := List.length_pos.mpr (List.ne_nil_of_mem hx)
  omega

/-- Success facts of `createGroup`: field shape plus the validation
equation. -/
theorem createGroup_ok {creatorId name : String} {memberIds : List String}
    {users : List Account} {groupId : String} {now : Nat} {g : Grp}
    (h : createGroup creatorId name memberIds users groupId now = .ok g) :
    (users.filter (fun u => decide (u.id ∈ memberIds ∧ u.isDeleted = false))).length
        = memberIds.length ∧
    g.createdById = creatorId ∧
    g.members = newMemberRow creatorId Role.admin now ::
      (memberIds.filter (fun i => decide (i ≠ creatorId))).map
        (fun i => newMemberRow i Role.member now) := by
  simp only [createGroup] at h
  split at h
  · exact absurd h (by simp)
  · rename_i hlen
    refine ⟨by omega, ?_, ?_⟩
    · cases h with | refl => rfl
    · cases h with | refl => rfl

/-- `createGroup` establishes the membership invariant. -/
theorem createGroup_good {creatorId name : String} {memberIds : List String}
    {users : List Account} {groupId : String} {now : Nat} {g : Grp}
    (hu : (users.map (·.id)).Nodup)
    (h : createGroup creatorId name memberIds users groupId now = .ok g) :
    goodGroup g := by
  rcases createGroup_ok h with ⟨hlen, hcb, hm⟩
  have hids : memberIds.Nodup := ids_nodup_of_matched_length hu hlen
  have hmap : ∀ l : List String,
      (l.map (fun i => newMemberRow i Role.member now)).map (fun m : Member => m.userId) = l := by
    intro l
    induction l with
    | nil => rfl
    | cons a l ih =>
      simp only [List.map_cons, ih]
      rfl
  refine ⟨?_, ?_, ?_⟩
  · rw [hm]
    simp only [List.map_cons]
    rw [hmap]
    refine List.nodup_cons.mpr ⟨?_, hids.filter _⟩
    intro hmem
    have := (List.mem_filter.mp hmem).2
    simp [newMemberRow] at this
  · exact ⟨newMemberRow creatorId Role.admin now, by rw [hm]; exact List.mem_cons_self _ _, rfl⟩
  · exact ⟨newMemberRow creatorId Role.admin now, by rw [hm]; exact List.mem_cons_self _ _,
      by simp [newMemberRow, hcb]⟩

/-- Success facts of `addMembers`: the admin gate passed, every target
id was validated, no target was already a member, and all targets were
inserted with role `member`. -/
theorem addMembers_ok {cache : Cache} {users : List Account} {now : Nat}
    {actingId : String} {g : Grp} {userIds : List String} {g1 : Grp} {c1 : Cache}
    (h : addMembers cache users now actingId g userIds = .ok (g1, c1)) :
    (users.filter (fun u => decide (u.id ∈ userIds ∧ u.isDeleted = false))).length
        = userIds.length ∧
    g.members.filter (fun m => decide (m.userId ∈ userIds)) = [] ∧
    g1.createdById = g.createdById ∧
    g1.members = g.members ++ userIds.map (fun uid => newMemberRow uid Role.member now) := by
  simp only [addMembers] at h
  cases hv : validateGroupAccess cache g actingId true with
  | error e =>
    simp only [hv] at h
    exact absurd h (by simp)
  | ok c =>
    rw [hv] at h
    dsimp only [] at h
    by_cases h1 : (users.filter (fun u => decide (u.id ∈ userIds ∧ u.isDeleted = false))).length
        ≠ userIds.length
    · rw [if_pos h1] at h
      exact absurd h (by simp)
    · rw [if_neg h1] at h
      by_cases h2 : (g.members.filter (fun m => decide (m.userId ∈ userIds))).length > 0
      · rw [if_pos h2] at h
        exact absurd h (by simp)
      · rw [if_neg h2] at h
        simp only [Except.ok.injEq, Prod.mk.injEq] at h
        obtain ⟨hA, hB⟩ := h
        subst hA
        have hex0 : g.members.filter (fun m => decide (m.userId ∈ userIds)) = [] :=
          List.length_eq_zero.mp (by omega)
        exact ⟨by omega, hex0, rfl, rfl⟩

/-- `addMembers` preserves the membership invariant. -/
theorem addMembers_good {cache : Cache} {users : List Account} {now : Nat}
    {actingId : String} {g : Grp} {userIds : List String} {g1 : Grp} {c1 : Cache}
    (hu : (users.map (·.id)).Nodup)
    (h : addMembers cache users now actingId g userIds = .ok (g1, c1))
    (hg : goodGroup g) : goodGroup g1 := by
  obtain ⟨hn, ⟨a0, ha0, ha0r⟩, ⟨cr, hcr, hcru⟩⟩ := hg
  rcases addMembers_ok h with ⟨hlen, hex, hcb, hm⟩
  have hids : userIds.Nodup := ids_nodup_of_matched_length hu hlen
  have hmap : ∀ l : List String,
      (l.map (fun uid => newMemberRow uid Role.member now)).map (fun m : Member => m.userId) = l := by
    intro l
    induction l with
    | nil => rfl
    | cons a l ih =>
      simp only [List.map_cons, ih]
      rfl
  have hnone : ∀ m ∈ g.members, m.userId ∉ userIds := by
    intro m hmem hin
    have := List.filter_eq_nil_iff.mp hex m hmem
    simp [hin] at this
  refine ⟨?_, ?_, ?_⟩
  · rw [hm, List.map_append, hmap]
    refine List.nodup_append.mpr ⟨hn, hids, ?_⟩
    intro x hx hx2
    rcases List.mem_map.mp hx with ⟨m, hmm, hmu⟩
    exact hnone m hmm (hmu ▸ hx2)
  · exact ⟨a0, by rw [hm]; exact List.mem_append.mpr (Or.inl ha0), ha0r⟩
  · exact ⟨cr, by rw [hm]; exact List.mem_append.mpr (Or.inl hcr), by rw [hcb]; exact hcru⟩

/-- `promoteRow` never changes the row's user id. -/
theorem promoteRow_userId (uid : String) (m : Member) :
    (promoteRow uid m).userId = m.userId := by
  unfold promoteRow
  split <;> rfl

/-- `setRoleRow` never changes the row's user id. -/
theorem setRoleRow_userId (uid : String) (newRole : Role) (m : Member) :
    (setRoleRow uid newRole m).userId = m.userId := by
  unfold setRoleRow
  split <;> rfl

/-- Mapping a userId-preserving function leaves the id column intact. -/
theorem map_userId_eq {f : Member → Member} (hf : ∀ m, (f m).userId = m.userId) :
    ∀ l : List Member, (l.map f).map (fun m : Member => m.userId) = l.map (fun m : Member => m.userId) := by
  intro l
  induction l with
  | nil => rfl
  | cons a l ih => simp only [List.map_cons, ih, hf]

/-- `removeMember` preserves the membership invariant. -/
theorem removeMember_good {g : Grp} {actingId targetId : String} {g1 : Grp} {msg : String}
    (h : removeMember g actingId targetId = .ok (g1, msg)) (hg : goodGroup g) : goodGroup g1 := by
  obtain ⟨hn, ⟨a0, ha0, ha0r⟩, ⟨cr, hcr, hcru⟩⟩ := hg
  have hperm := List.perm_insertionSort byJoined g.members
  set ms := List.insertionSort byJoined g.members with hms
  have hnms : (ms.map (fun m : Member => m.userId)).Nodup :=
    (hperm.map (fun m : Member => m.userId)).nodup_iff.mpr hn
  have hinj : ∀ ⦃x : Member⦄, x ∈ ms → ∀ ⦃y : Member⦄, y ∈ ms → x.userId = y.userId → x = y :=
    List.inj_on_of_nodup_map hnms
  have hmsnd : ms.Nodup := List.Nodup.of_map _ hnms
  have hcrms : cr ∈ ms := hperm.mem_iff.mpr hcr
  have ha0ms : a0 ∈ ms := hperm.mem_iff.mpr ha0
  simp only [removeMember] at h
  rw [← hms] at h
  cases hreq : ms.find? (fun m => decide (m.userId = actingId)) with
  | none =>
    simp only [hreq] at h
    exact absurd h (by simp)
  | some requesterMember =>
    simp only [hreq] at h
    cases htgt : ms.find? (fun m => decide (m.userId = targetId)) with
    | none =>
      simp only [htgt] at h
      exact absurd h (by simp)
    | some targetMember =>
      simp only [htgt] at h
      have htgtu : targetMember.userId = targetId := by
        have := List.find?_some htgt
        simpa using this
      have htgtms : targetMember ∈ ms := List.mem_of_find?_eq_some htgt
      by_cases hc : targetId = g.createdById
      · rw [if_pos hc] at h
        exact absurd h (by simp)
      · rw [if_neg hc] at h
        by_cases hsel : actingId ≠ targetId ∧ requesterMember.role ≠ Role.admin
        · rw [if_pos hsel] at h
          exact absurd h (by simp)
        · rw [if_neg hsel] at h
          by_cases hla : targetMember.role = Role.admin ∧
              (ms.filter (fun m => decide (m.role = Role.admin))).length = 1
          · rw [if_pos hla] at h
            cases hold : ms.find? (fun m => decide (m.role = Role.member ∧ m.userId ≠ targetId)) with
            | none =>
              simp only [hold] at h
              exact absurd h (by simp)
            | some oldestMember =>
              simp only [hold] at h
              simp only [Except.ok.injEq, Prod.mk.injEq] at h
              obtain ⟨hA, hB⟩ := h
              subst hA
              have holdp : oldestMember.role = Role.member ∧ oldestMember.userId ≠ targetId := by
                have := List.find?_some hold
                simpa using this
              have holdms : oldestMember ∈ ms := List.mem_of_find?_eq_some hold
              refine ⟨?_, ?_, ?_⟩
              · have h1 := map_userId_eq (promoteRow_userId oldestMember.userId) ms
                have h2 : ((ms.map (promoteRow oldestMember.userId)).filter
                    (fun m => decide (m.userId ≠ targetMember.userId))).map (fun m : Member => m.userId)
                    |>.Sublist ((ms.map (promoteRow oldestMember.userId)).map (fun m : Member => m.userId)) :=
                  (List.filter_sublist _).map _
                rw [h1] at h2
                exact h2.nodup hnms
              · refine ⟨promoteRow oldestMember.userId oldestMember, ?_, ?_⟩
                · refine List.mem_filter.mpr ⟨List.mem_map_of_mem _ holdms, ?_⟩
                  simp [promoteRow_userId, htgtu, holdp.2]
                · simp [promoteRow]
              · refine ⟨promoteRow oldestMember.userId cr, ?_, ?_⟩
                · refine List.mem_filter.mpr ⟨List.mem_map_of_mem _ hcrms, ?_⟩
                  have : cr.userId ≠ targetMember.userId := by
                    rw [htgtu, hcru]
                    exact fun he => hc (he.symm)
                  simp [promoteRow_userId, this]
                · simp [promoteRow_userId, hcru]
          · rw [if_neg hla] at h
            simp only [Except.ok.injEq, Prod.mk.injEq] at h
            obtain ⟨hA, hB⟩ := h
            subst hA
            refine ⟨?_, ?_, ?_⟩
            · have h2 : ((ms.filter (fun m => decide (m.userId ≠ targetMember.userId))).map
                  (fun m : Member => m.userId)).Sublist (ms.map (fun m : Member => m.userId)) :=
                (List.filter_sublist _).map _
              exact h2.nodup hnms
            · by_cases ha0t : a0.userId = targetMember.userId
              · have ha0eq : a0 = targetMember := hinj ha0ms htgtms ha0t
                have htrole : targetMember.role = Role.admin := ha0eq ▸ ha0r
                have hlen1 : (ms.filter (fun m => decide (m.role = Role.admin))).length ≠ 1 := by
                  intro hlen
                  exact hla ⟨htrole, hlen⟩
                have htadm : targetMember ∈ ms.filter (fun m => decide (m.role = Role.admin)) :=
                  List.mem_filter.mpr ⟨htgtms, by simp [htrole]⟩
                obtain ⟨a1, ha1, ha1ne⟩ :=
                  exists_ne_of_length_ne_one (hmsnd.filter _) htadm hlen1
                have ha1ms : a1 ∈ ms := (List.mem_filter.mp ha1).1
                have ha1r : a1.role = Role.admin := by
                  have := (List.mem_filter.mp ha1).2
                  simpa using this
                refine ⟨a1, List.mem_filter.mpr ⟨ha1ms, ?_⟩, ha1r⟩
                simp only [decide_eq_true_eq]
                intro he
                exact ha1ne (hinj ha1ms htgtms he)
              · exact ⟨a0, List.mem_filter.mpr ⟨ha0ms, by simpa using ha0t⟩, ha0r⟩
            · refine ⟨cr, List.mem_filter.mpr ⟨hcrms, ?_⟩, hcru⟩
              simp only [decide_eq_true_eq]
              rw [htgtu, hcru]
              exact fun he => hc (he.symm)

/-- `updateMemberRole` preserves the membership invariant. -/
theorem updateMemberRole_good {g : Grp} {actingId targetId : String} {newRole : Role}
    {g1 : Grp} {msg : String}
    (h : updateMemberRole g actingId targetId newRole = .ok (g1, msg))
    (hg : goodGroup g) : goodGroup g1 := by
  obtain ⟨hn, ⟨a0, ha0, ha0r⟩, ⟨cr, hcr, hcru⟩⟩ := hg
  have hinj : ∀ ⦃x : Member⦄, x ∈ g.members → ∀ ⦃y : Member⦄, y ∈ g.members →
      x.userId = y.userId → x = y := List.inj_on_of_nodup_map hn
  have hnd : g.members.Nodup := List.Nodup.of_map _ hn
  simp only [updateMemberRole] at h
  cases hreq : g.members.find? (fun m => decide (m.userId = actingId)) with
  | none =>
    simp only [hreq] at h
    exact absurd h (by simp)
  | some requesterMember =>
    simp only [hreq] at h
    by_cases hradm : requesterMember.role ≠ Role.admin
    · rw [if_pos hradm] at h
      exact absurd h (by simp)
    · rw [if_neg hradm] at h
      cases htgt : g.members.find? (fun m => decide (m.userId = targetId)) with
      | none =>
        simp only [htgt] at h
        exact absurd h (by simp)
      | some targetMember =>
        simp only [htgt] at h
        have htgtu : targetMember.userId = targetId := by simpa using List.find?_some htgt
        have htgtm : targetMember ∈ g.members := List.mem_of_find?_eq_some htgt
        by_cases hsame : targetMember.role = newRole
        · rw [if_pos hsame] at h
          simp only [Except.ok.injEq, Prod.mk.injEq] at h
          obtain ⟨hA, hB⟩ := h
          subst hA
          exact ⟨hn, ⟨a0, ha0, ha0r⟩, ⟨cr, hcr, hcru⟩⟩
        · rw [if_neg hsame] at h
          by_cases hdem : targetMember.role = Role.admin ∧ newRole = Role.member ∧
              (g.members.filter (fun m => decide (m.role = Role.admin))).length = 1
          · rw [if_pos hdem] at h
            exact absurd h (by simp)
          · rw [if_neg hdem] at h
            simp only [Except.ok.injEq, Prod.mk.injEq] at h
            obtain ⟨hA, hB⟩ := h
            subst hA
            refine ⟨?_, ?_, ?_⟩
            · rw [map_userId_eq (setRoleRow_userId targetId newRole)]
              exact hn
            · cases hnr : newRole with
              | admin =>
                refine ⟨setRoleRow targetId Role.admin targetMember,
                  List.mem_map_of_mem _ htgtm, ?_⟩
                simp [setRoleRow, htgtu]
              | member =>
                have htadm : targetMember.role = Role.admin := by
                  cases hto : targetMember.role with
                  | admin => rfl
                  | member => exact absurd (hto.trans hnr.symm) hsame
                have hlen1 : (g.members.filter (fun m => decide (m.role = Role.admin))).length ≠ 1 :=
                  fun hl => hdem ⟨htadm, hnr, hl⟩
                have htin : targetMember ∈ g.members.filter (fun m => decide (m.role = Role.admin)) :=
                  List.mem_filter.mpr ⟨htgtm, by simp [htadm]⟩
                obtain ⟨a1, ha1, ha1ne⟩ := exists_ne_of_length_ne_one (hnd.filter _) htin hlen1
                have ha1m : a1 ∈ g.members := (List.mem_filter.mp ha1).1
                have ha1r : a1.role = Role.admin := by simpa using (List.mem_filter.mp ha1).2
                refine ⟨setRoleRow targetId Role.member a1, List.mem_map_of_mem _ ha1m, ?_⟩
                have hne : a1.userId ≠ targetId :=
                  fun he => ha1ne (hinj ha1m htgtm (he.trans htgtu.symm))
                simp [setRoleRow, hne, ha1r]
            · refine ⟨setRoleRow targetId newRole cr, List.mem_map_of_mem _ hcr, ?_⟩
              rw [setRoleRow_userId]
              exact hcru

/-- Every reachable group satisfies the membership invariant. -/
theorem reachable_good {g : Grp} (h : Reachable g) : goodGroup g := by
  induction h with
  | created creatorId name memberIds users groupId now g husers hok =>
    exact createGroup_good husers hok
  | step g g1 hg hs ih =>
    cases hs with
    | add _ _ _ _ _ _ _ _ husers hok => exact addMembers_good husers hok ih
    | remove _ _ _ _ _ hok => exact removeMember_good hok ih
    | role _ _ _ _ _ _ hok => exact updateMemberRole_good hok ih

/-- Claim C1: for every group, after any sequence of successful
`CreateGroup`, `AddMembers`, `RemoveMember` and `UpdateMemberRole`
operations (`Reachable`), the group has at least one member whose role
is `admin`: creation inserts the creator as admin, removal refuses (or
substitutes by auto-promotion) any removal that would leave zero admins,
and role update refuses to demote the sole admin. -/
theorem c1_last_admin_invariant {g : Grp} (h : Reachable g) :
    ∃ m ∈ g.members, m.role = Role.admin :=
  (reachable_good h).2.1

/-- Witness for C1 at a concretely created group. -/
theorem c1_last_admin_invariant_witness :
    ∃ m ∈ (⟨"g1", "n", "c", [⟨"c", Role.admin, 0⟩, ⟨"a", Role.member, 0⟩]⟩ : Grp).members,
      m.role = Role.admin :=
  c1_last_admin_invariant
    (Reachable.created "c" "n" ["a"] [⟨"a", false⟩] "g1" 0 _ (by decide) (by rfl))

/-- Claim C2: in every reachable group, a `RemoveMember` whose target is
the group's `createdBy` user fails with permission denied for every
acting user (including the creator), leaving the member set unchanged
(an error result mutates nothing); and the creator is always present in
the member set, so no sequence of removals ever removes the creator. -/
theorem c2_creator_never_removed {g : Grp} (h : Reachable g) :
    (∀ actingId, ∃ msg, removeMember g actingId g.createdById =
      .error (.permissionDenied msg)) ∧
    ∃ m ∈ g.members, m.userId = g.createdById := by
  obtain ⟨hn, hadm, ⟨cr, hcr, hcru⟩⟩ := reachable_good h
  refine ⟨?_, ⟨cr, hcr, hcru⟩⟩
  intro actingId
  have hperm := List.perm_insertionSort byJoined g.members
  set ms := List.insertionSort byJoined g.members with hms
  simp only [removeMember]
  rw [← hms]
  cases hreq : ms.find? (fun m => decide (m.userId = actingId)) with
  | none =>
    simp only [hreq]
    exact ⟨"You are not a member of this group", rfl⟩
  | some requesterMember =>
    simp only [hreq]
    have hex : ∃ x ∈ ms, decide (x.userId = g.createdById) = true :=
      ⟨cr, hperm.mem_iff.mpr hcr, by simp [hcru]⟩
    obtain ⟨t, ht⟩ := Option.isSome_iff_exists.mp (List.find?_isSome.mpr hex)
    simp only [ht]
    rw [if_pos trivial]
    exact ⟨"Cannot remove the group creator", rfl⟩

/-- Witness for C2: the creator removing themself from a concretely
created group is refused. -/
theorem c2_creator_never_removed_witness :
    (∃ msg, removeMember (⟨"g2", "nm", "c", [⟨"c", Role.admin, 0⟩]⟩ : Grp)
        "c" "c" = .error (.permissionDenied msg)) ∧
    ∃ m ∈ (⟨"g2", "nm", "c", [⟨"c", Role.admin, 0⟩]⟩ : Grp).members, m.userId = "c" := by
  have hreach : Reachable (⟨"g2", "nm", "c", [⟨"c", Role.admin, 0⟩]⟩ : Grp) :=
    Reachable.created "c" "nm" [] [] "g2" 0 _ (by decide) (by rfl)
  exact ⟨(c2_creator_never_removed hreach).1 "c", (c2_creator_never_removed hreach).2⟩

/-- Claim C7: for every cache state (hit-true, hit-false or miss), an
admin-gated access check (`requireAdmin = true`) succeeds only if the
authoritative membership store records the acting user as a member with
role `admin` at check time; a cache hit asserting membership still
triggers a direct store lookup of the role, so stale cache content never
grants admin privileges. -/
theorem c7_admin_check_authoritative {cache : Cache} {g : Grp} {userId : String} {c1 : Cache}
    (h : validateGroupAccess cache g userId true = .ok c1) :
    ∃ m ∈ g.members, m.userId = userId ∧ m.role = Role.admin := by
  simp only [validateGroupAccess] at h
  cases hc : cacheGet cache userId g.id with
  | some cached =>
    simp only [hc] at h
    by_cases hb : cached = false
    · rw [if_pos hb] at h
      exact absurd h (by simp)
    · rw [if_neg hb] at h
      rw [if_pos trivial] at h
      cases hf : g.members.find? (fun m => decide (m.userId = userId)) with
      | none =>
        simp only [hf] at h
        exact absurd h (by simp)
      | some m =>
        simp only [hf] at h
        by_cases hr : m.role = Role.admin
        · exact ⟨m, List.mem_of_find?_eq_some hf, by simpa using List.find?_some hf, hr⟩
        · rw [if_neg hr] at h
          exact absurd h (by simp)
  | none =>
    simp only [hc] at h
    cases hf : g.members.find? (fun m => decide (m.userId = userId)) with
    | none =>
      simp only [hf] at h
      exact absurd h (by simp)
    | some m =>
      simp only [hf] at h
      by_cases hr : m.role = Role.admin
      · exact ⟨m, List.mem_of_find?_eq_some hf, by simpa using List.find?_some hf, hr⟩
      · rw [if_pos ⟨trivial, hr⟩] at h
        exact absurd h (by simp)

/-- Witness for C7: a cache-miss admin check that succeeds, at a
concrete group whose store does hold the admin row. -/
theorem c7_admin_check_authoritative_witness :
    ∃ m ∈ (⟨"g7", "n", "a", [⟨"a", Role.admin, 0⟩, ⟨"m", Role.member, 1⟩]⟩ : Grp).members,
      m.userId = "a" ∧ m.role = Role.admin :=
  c7_admin_check_authoritative
    (by rfl : validateGroupAccess []
      (⟨"g7", "n", "a", [⟨"a", Role.admin, 0⟩, ⟨"m", Role.member, 1⟩]⟩ : Grp) "a" true =
      Except.ok [⟨"a", "g7", true⟩])

/-- Claim C8: an `UpdateMemberRole` call by an admin requester whose
`newRole` equals the target member's current role succeeds without
mutating any state (the returned group is exactly the input group) and
returns the distinct already-has-this-role message rather than the
promotion/demotion confirmation or an error. -/
theorem c8_role_noop {g : Grp} {actingId targetId : String} {newRole : Role}
    {r t : Member}
    (hreq : g.members.find? (fun m => decide (m.userId = actingId)) = some r)
    (hradm : r.role = Role.admin)
    (htgt : g.members.find? (fun m => decide (m.userId = targetId)) = some t)
    (hsame : t.role = newRole) :
    updateMemberRole g actingId targetId newRole =
      .ok (g, "User is already a " ++ newRole.str) := by
  simp only [updateMemberRole, hreq, htgt]
  rw [if_neg (by simp [hradm])]
  rw [if_pos hsame]

/-- Witness for C8: re-granting `member` to a member is a no-op
success. -/
theorem c8_role_noop_witness :
    updateMemberRole (⟨"g8", "n", "c", [⟨"c", Role.admin, 0⟩, ⟨"m", Role.member, 1⟩]⟩ : Grp)
      "c" "m" Role.member =
      .ok ((⟨"g8", "n", "c", [⟨"c", Role.admin, 0⟩, ⟨"m", Role.member, 1⟩]⟩ : Grp),
        "User is already a member") :=
  c8_role_noop (r := ⟨"c", Role.admin, 0⟩) (t := ⟨"m", Role.member, 1⟩)
    (by rfl) (by rfl) (by rfl) (by rfl)

/-- Counterexample to C9 as stated: the supplied limit `0` is below 1,
yet the effective page size is the default 20, not the clamp value 1
(JavaScript falsiness routes `0` to the `: 20` branch). -/
theorem c9_limit_counterexample :
    (0 : Int) < 1 ∧ effectiveLimit (some 0) = 20 ∧ effectiveLimit (some 0) ≠ 1 := by
  decide

/-- Claim C9 (amended): the effective page size is 20 when no limit is
supplied and also when the supplied limit is 0 (falsy); every other
supplied value is clamped into [1, 100] — above 100 becomes 100, below 1
becomes 1, values already in range pass through; the sort parameter
defaults to `desc` when absent or invalid. -/
theorem c9_limit_sort_normalization :
    effectiveLimit none = 20 ∧
    effectiveLimit (some 0) = 20 ∧
    (∀ n : Int, n ≠ 0 →
      1 ≤ effectiveLimit (some n) ∧ effectiveLimit (some n) ≤ 100 ∧
      (100 < n → effectiveLimit (some n) = 100) ∧
      (n < 1 → effectiveLimit (some n) = 1) ∧
      (1 ≤ n → n ≤ 100 → effectiveLimit (some n) = n)) ∧
    effectiveSort none = "desc" ∧
    effectiveSort (some "asc") = "asc" ∧
    effectiveSort (some "desc") = "desc" ∧
    (∀ s, s ≠ "asc" → s ≠ "desc" → effectiveSort (some s) = "desc") := by
  refine ⟨rfl, by decide, ?_, rfl, by decide, by decide, ?_⟩
  · intro n hn
    simp only [effectiveLimit, if_neg hn]
    refine ⟨?_, ?_, ?_, ?_, ?_⟩ <;> omega
  · intro s h1 h2
    simp [effectiveSort, h1, h2]

/-- Witness for C9 (amended) at limit 200 and an invalid sort value. -/
theorem c9_limit_sort_normalization_witness :
    effectiveLimit (some 200) = 100 ∧ effectiveSort (some "down") = "desc" :=
  ⟨(c9_limit_sort_normalization.2.2.1 200 (by decide)).2.2.1 (by decide),
   c9_limit_sort_normalization.2.2.2.2.2.2 "down" (by decide) (by decide)⟩

/-- Claim C10: a `CreateGroup` whose `memberIds` contains the same
existing, non-deleted, non-creator id more than once fails with
invalid-argument even though every listed id resolves to a valid user,
because validation compares the count of distinct matched users against
the raw length of `memberIds`; while a single listing of the creator's
own id is silently absorbed: the call succeeds with exactly one
membership row (role `admin`) for the creator. -/
theorem c10_create_duplicate_member_ids {userId name : String} {memberIds : List String}
    {users : List Account} {groupId : String} {now : Nat}
    (husers : (users.map (·.id)).Nodup) :
    ((∃ x, x ≠ userId ∧ (∃ u ∈ users, u.id = x ∧ u.isDeleted = false) ∧
        2 ≤ memberIds.count x) →
      createGroup userId name memberIds users groupId now =
        .error (.invalidArgument "One or more user IDs are invalid")) ∧
    (memberIds.Nodup →
      (∀ x ∈ memberIds, ∃ u ∈ users, u.id = x ∧ u.isDeleted = false) →
      userId ∈ memberIds →
      ∃ g, createGroup userId name memberIds users groupId now = .ok g ∧
        (g.members.filter (fun m => decide (m.userId = userId))).length = 1 ∧
        ∃ m ∈ g.members, m.userId = userId ∧ m.role = Role.admin) := by
  constructor
  · rintro ⟨x, _, _, hcount⟩
    have hnd : ¬ memberIds.Nodup := fun hn => by
      have := List.nodup_iff_count_le_one.mp hn x
      omega
    have h1 := @matched_length_le_dedup users memberIds husers
    have h2 := dedup_length_lt_of_not_nodup hnd
    simp only [createGroup]
    rw [if_pos (by omega)]
  · intro hnd hvalid _hin
    have hlen := matched_length_eq husers hnd hvalid
    simp only [createGroup]
    rw [if_neg (by omega)]
    refine ⟨_, rfl, ?_, ?_⟩
    · have hrest : ((memberIds.filter (fun i => decide (i ≠ userId))).map
          (fun i => newMemberRow i Role.member now)).filter
            (fun m => decide (m.userId = userId)) = [] := by
        rw [List.filter_eq_nil_iff]
        intro m hm
        rcases List.mem_map.mp hm with ⟨i, hi, hieq⟩
        have : i ≠ userId := by simpa using (List.mem_filter.mp hi).2
        subst hieq
        simpa [newMemberRow] using this
      rw [List.filter_cons_of_pos (by simp [newMemberRow]), hrest]
      rfl
    · exact ⟨newMemberRow userId Role.admin now, List.mem_cons_self _ _, rfl, rfl⟩

/-- Witness for C10: `["a", "a"]` with a valid user `a` is rejected;
listing the creator once yields a single admin row for them. -/
theorem c10_create_duplicate_member_ids_witness :
    (createGroup "c" "n" ["a", "a"] [⟨"a", false⟩] "gX" 0 =
      .error (.invalidArgument "One or more user IDs are invalid")) ∧
    ∃ g, createGroup "c" "n" ["c", "a"] [⟨"c", false⟩, ⟨"a", false⟩] "gY" 0 = .ok g ∧
      (g.members.filter (fun m => decide (m.userId = "c"))).length = 1 ∧
      ∃ m ∈ g.members, m.userId = "c" ∧ m.role = Role.admin :=
  ⟨(c10_create_duplicate_member_ids (by decide)).1 ⟨"a", by decide⟩,
   (c10_create_duplicate_member_ids (by decide)).2 (by decide) (by decide) (by decide)⟩

/-- Claim C6: an `AddMembers` call that passes the admin gate and the
target-user validation but lists at least one id that is already a
member fails with `Conflict`, whose message names exactly the
already-member target ids, and (all-or-nothing) no membership row is
inserted — while every successful call inserts all requested ids with
role `member`. -/
theorem c6_add_members_conflict {cache : Cache} {users : List Account} {now : Nat}
    {actingId : String} {g : Grp} {userIds : List String} :
    (∀ c0, validateGroupAccess cache g actingId true = .ok c0 →
      (users.filter (fun u => decide (u.id ∈ userIds ∧ u.isDeleted = false))).length
          = userIds.length →
      g.members.filter (fun m => decide (m.userId ∈ userIds)) ≠ [] →
      addMembers cache users now actingId g userIds =
        .error (.conflict ("Users " ++ String.intercalate ", "
          ((g.members.filter (fun m => decide (m.userId ∈ userIds))).map (·.userId)) ++
          " are already members of this group")) ∧
      (∀ x, x ∈ (g.members.filter (fun m => decide (m.userId ∈ userIds))).map (·.userId) ↔
        (x ∈ userIds ∧ ∃ m ∈ g.members, m.userId = x))) ∧
    (∀ g1 c1, addMembers cache users now actingId g userIds = .ok (g1, c1) →
      g1.members = g.members ++ userIds.map (fun uid => newMemberRow uid Role.member now)) := by
  constructor
  · intro c0 hv hlen hex
    constructor
    · simp only [addMembers, hv]
      rw [if_neg (by omega)]
      rw [if_pos (List.length_pos.mpr hex)]
    · intro x
      simp only [List.mem_map, List.mem_filter, decide_eq_true_eq]
      constructor
      · rintro ⟨m, ⟨hm, hin⟩, heq⟩
        exact ⟨heq ▸ hin, m, hm, heq⟩
      · rintro ⟨hin, m, hm, heq⟩
        refine ⟨m, ⟨hm, ?_⟩, heq⟩
        rw [heq]
        exact hin
  · intro g1 c1 h
    exact (addMembers_ok h).2.2.2

/-- Witness for C6: an admin adds `["m", "x"]` where `m` is already a
member — the whole batch is refused with a conflict naming `m`. -/
theorem c6_add_members_conflict_witness :
    addMembers [] [⟨"m", false⟩, ⟨"x", false⟩] 5 "a"
      (⟨"g6", "n", "c", [⟨"a", Role.admin, 0⟩, ⟨"m", Role.member, 1⟩]⟩ : Grp) ["m", "x"] =
      .error (.conflict "Users m are already members of this group") :=
  (c6_add_members_conflict.1 [⟨"a", "g6", true⟩] (by rfl) (by rfl) (by decide)).1

/-- Claim C3: a `RemoveMember` whose target is the sole remaining admin
and not the creator — necessarily initiated by the target themself,
self-removal being the only authorized call in that situation — succeeds
whenever the group still holds a role-`member` row other than the
target: the eligible member with the earliest `joinedAt` is promoted to
admin and the target removed in one atomic update of the member set, and
the returned message textually identifies the promoted member; if no
eligible member exists the removal fails with permission denied (and, as
an error, changes nothing). -/
theorem c3_sole_admin_self_removal {g : Grp} {targetId : String} {t : Member}
    (hn : (g.members.map (·.userId)).Nodup)
    (ht : t ∈ g.members) (htu : t.userId = targetId) (htr : t.role = Role.admin)
    (hsole : (g.members.filter (fun m => decide (m.role = Role.admin))).length = 1)
    (hncr : targetId ≠ g.createdById) :
    ((∃ e ∈ g.members, e.role = Role.member ∧ e.userId ≠ targetId) →
      ∃ p ∈ g.members, p.role = Role.member ∧ p.userId ≠ targetId ∧
        (∀ m ∈ g.members, m.role = Role.member → m.userId ≠ targetId →
          p.joinedAt ≤ m.joinedAt) ∧
        ∃ g1, removeMember g targetId targetId =
            .ok (g1, "Member removed successfully. " ++ p.userId ++
              " has been promoted to admin.") ∧
          g1.createdById = g.createdById ∧
          g1.members.Perm ((g.members.map (promoteRow p.userId)).filter
            (fun m => decide (m.userId ≠ targetId)))) ∧
    ((¬ ∃ e ∈ g.members, e.role = Role.member ∧ e.userId ≠ targetId) →
      removeMember g targetId targetId =
        .error (.permissionDenied
          "Cannot remove the last admin. Group must have at least one admin.")) := by
  have hperm := List.perm_insertionSort byJoined g.members
  set ms := List.insertionSort byJoined g.members with hms
  have hnms : (ms.map (fun m : Member => m.userId)).Nodup :=
    (hperm.map (fun m : Member => m.userId)).nodup_iff.mpr hn
  have hinj : ∀ ⦃x : Member⦄, x ∈ ms → ∀ ⦃y : Member⦄, y ∈ ms → x.userId = y.userId → x = y :=
    List.inj_on_of_nodup_map hnms
  have htms : t ∈ ms := hperm.mem_iff.mpr ht
  have hex : ∃ x ∈ ms, (fun m : Member => decide (m.userId = targetId)) x = true :=
    ⟨t, htms, by simp [htu]⟩
  obtain ⟨r, hr⟩ := Option.isSome_iff_exists.mp (List.find?_isSome.mpr hex)
  have hru : r.userId = targetId := by simpa using List.find?_some hr
  have hrms : r ∈ ms := List.mem_of_find?_eq_some hr
  have hrt : r = t := hinj hrms htms (hru.trans htu.symm)
  have hred : removeMember g targetId targetId =
      match ms.find? (fun m => decide (m.role = Role.member ∧ m.userId ≠ targetId)) with
      | none => .error (.permissionDenied
          "Cannot remove the last admin. Group must have at least one admin.")
      | some oldestMember =>
          .ok ((⟨g.id, g.name, g.createdById,
              (ms.map (promoteRow oldestMember.userId)).filter
                (fun m => decide (m.userId ≠ targetId))⟩ : Grp),
            "Member removed successfully. " ++ oldestMember.userId ++
              " has been promoted to admin.") := by
    simp only [removeMember]
    rw [← hms]
    simp only [hr, hru]
    rw [if_neg hncr]
    rw [if_neg (fun hand => hand.1 rfl)]
    have hfl : (ms.filter (fun m => decide (m.role = Role.admin))).length =
        (g.members.filter (fun m => decide (m.role = Role.admin))).length :=
      (hperm.filter _).length_eq
    rw [if_pos ⟨by rw [hrt]; exact htr, by rw [hfl]; exact hsole⟩]
  constructor
  · rintro ⟨e, he, her, heu⟩
    have hex2 : ∃ x ∈ ms,
        (fun m : Member => decide (m.role = Role.member ∧ m.userId ≠ targetId)) x = true :=
      ⟨e, hperm.mem_iff.mpr he, by simp [her, heu]⟩
    obtain ⟨old, holdft⟩ := Option.isSome_iff_exists.mp (List.find?_isSome.mpr hex2)
    have holdp : old.role = Role.member ∧ old.userId ≠ targetId := by
      simpa using List.find?_some holdft
    have holdms : old ∈ ms := List.mem_of_find?_eq_some holdft
    have hsorted : List.Pairwise byJoined ms := by
      rw [hms]
      exact List.sorted_insertionSort byJoined g.members
    have hmin : ∀ m ∈ g.members, m.role = Role.member → m.userId ≠ targetId →
        old.joinedAt ≤ m.joinedAt := by
      intro m hm hmr hmu
      rcases find_min_of_pairwise hsorted holdft m (hperm.mem_iff.mpr hm)
          (by simp [hmr, hmu]) with heq | hle
      · rw [heq]
      · exact hle
    refine ⟨old, hperm.mem_iff.mp holdms, holdp.1, holdp.2, hmin, ?_⟩
    rw [hred, holdft]
    refine ⟨_, rfl, rfl, ?_⟩
    exact (hperm.map (promoteRow old.userId)).filter _
  · intro hne
    have hnone : ms.find? (fun m => decide (m.role = Role.member ∧ m.userId ≠ targetId)) = none := by
      rw [List.find?_eq_none]
      intro x hx hpx
      rcases (by simpa using hpx : x.role = Role.member ∧ x.userId ≠ targetId) with ⟨h1, h2⟩
      exact hne ⟨x, hperm.mem_iff.mp hx, h1, h2⟩
    rw [hred, hnone]

/-- Witness for C3: the sole admin `a` (not the creator `c`) removes
themself; the earliest-joined plain member (`c`, joined at 3) is
promoted. -/
theorem c3_sole_admin_self_removal_witness :
    ∃ p ∈ (⟨"g3", "n", "c", [⟨"a", Role.admin, 0⟩, ⟨"m", Role.member, 5⟩,
        ⟨"c", Role.member, 3⟩]⟩ : Grp).members,
      p.role = Role.member ∧ p.userId ≠ "a" ∧
      (∀ m ∈ (⟨"g3", "n", "c", [⟨"a", Role.admin, 0⟩, ⟨"m", Role.member, 5⟩,
          ⟨"c", Role.member, 3⟩]⟩ : Grp).members,
        m.role = Role.member → m.userId ≠ "a" → p.joinedAt ≤ m.joinedAt) ∧
      ∃ g1, removeMember (⟨"g3", "n", "c", [⟨"a", Role.admin, 0⟩, ⟨"m", Role.member, 5⟩,
          ⟨"c", Role.member, 3⟩]⟩ : Grp) "a" "a" =
          .ok (g1, "Member removed successfully. " ++ p.userId ++
            " has been promoted to admin.") ∧
        g1.createdById = "c" ∧
        g1.members.Perm (((⟨"g3", "n", "c", [⟨"a", Role.admin, 0⟩, ⟨"m", Role.member, 5⟩,
            ⟨"c", Role.member, 3⟩]⟩ : Grp).members.map (promoteRow p.userId)).filter
          (fun m => decide (m.userId ≠ "a"))) :=
  (c3_sole_admin_self_removal (t := ⟨"a", Role.admin, 0⟩)
    (by decide) (by decide) (by decide) (by decide) (by decide) (by decide)).1 (by decide)

/-- The compound-key preorder sharpens to the strict page order as soon
as the two ids differ. -/
theorem strictKey_of_msgRel {s : SortDir} {a b : Msg}
    (h : msgRel s a b) (hne : a.id ≠ b.id) : strictKey s a b := by
  cases s with
  | asc =>
    rcases h with h | ⟨he, hle⟩
    · exact Or.inl h
    · exact Or.inr ⟨he, lt_of_le_of_ne hle hne⟩
  | desc =>
    rcases h with h | ⟨he, hle⟩
    · exact Or.inl h
    · exact Or.inr ⟨he, lt_of_le_of_ne hle (fun he2 => hne he2.symm)⟩

/-- Membership in the selected row set, spelled out. -/
theorem mem_matchingMsgs {db : List Msg} {userId : String} {cursorTs : Nat}
    {cursorId : String} {sort : SortDir} {m : Msg} :
    m ∈ matchingMsgs db userId (some (cursorTs, cursorId)) sort ↔
      m ∈ db ∧ inScope userId m ∧ cursorCond sort cursorTs cursorId m := by
  simp [matchingMsgs, List.mem_filter, and_assoc]
  tauto

/-- The retained page of `findAll` is the first `limit` rows of the
sorted selected set. -/
theorem findAll_data_eq (db : List Msg) (userId : String)
    (cursor : Option (Nat × String)) (limit : Nat) (sort : SortDir) :
    (findAll db userId cursor limit sort).data =
      (List.insertionSort (msgRel sort) (matchingMsgs db userId cursor sort)).take limit := by
  simp only [findAll]
  rw [List.take_take]
  have hmin : limit ⊓ (limit + 1) = limit := by omega
  rw [hmin]

/-- Claim C4 (spec-modelled `findAll`): with a decoded cursor
`(cursorTs, cursorId)` the returned page consists exactly of in-scope
messages inside the cursor window — for `desc` the window is
`createdAt < cursorTs OR (createdAt = cursorTs AND id < cursorId)`, for
`asc` the mirrored strictly-greater condition (`cursorCond`) — listed in
the strict compound `(createdAt, id)` order of the sort direction
(`strictKey`, total even under timestamp collisions when ids are
unique), and the only in-scope window messages missing from the page are
cut off by a full page, all of them sorting strictly after every listed
row. -/
theorem c4_cursor_window (sort : SortDir) (db : List Msg) (userId : String)
    (cursorTs : Nat) (cursorId : String) (limit : Nat)
    (hnodup : (db.map (·.id)).Nodup) :
    (∀ m ∈ (findAll db userId (some (cursorTs, cursorId)) limit sort).data,
      inScope userId m ∧ cursorCond sort cursorTs cursorId m) ∧
    (findAll db userId (some (cursorTs, cursorId)) limit sort).data.Pairwise
      (strictKey sort) ∧
    (∀ m ∈ db, inScope userId m → cursorCond sort cursorTs cursorId m →
      m ∈ (findAll db userId (some (cursorTs, cursorId)) limit sort).data ∨
        ((findAll db userId (some (cursorTs, cursorId)) limit sort).data.length = limit ∧
          ∀ a ∈ (findAll db userId (some (cursorTs, cursorId)) limit sort).data,
            strictKey sort a m)) := by
  have hperm := List.perm_insertionSort (msgRel sort)
    (matchingMsgs db userId (some (cursorTs, cursorId)) sort)
  set F := matchingMsgs db userId (some (cursorTs, cursorId)) sort with hF
  set S := List.insertionSort (msgRel sort) F with hS
  have hdata := findAll_data_eq db userId (some (cursorTs, cursorId)) limit sort
  rw [← hF, ← hS] at hdata
  have hFsub : F.Sublist (db.filter (fun m => decide (inScope userId m))) := by
    rw [hF]
    simp only [matchingMsgs]
    exact List.filter_sublist _
  have hFdb : F.Sublist db := hFsub.trans (List.filter_sublist _)
  have hFnodup : (F.map (fun m : Msg => m.id)).Nodup := (hFdb.map _).nodup hnodup
  have hSnodup : (S.map (fun m : Msg => m.id)).Nodup :=
    (hperm.map (fun m : Msg => m.id)).nodup_iff.mpr hFnodup
  have hSpairne : S.Pairwise (fun a b : Msg => a.id ≠ b.id) :=
    List.pairwise_map.mp hSnodup
  have hSpair : S.Pairwise (msgRel sort) := by
    rw [hS]
    exact List.sorted_insertionSort (msgRel sort) F
  have hstrict : S.Pairwise (strictKey sort) :=
    (hSpair.and hSpairne).imp (fun h => strictKey_of_msgRel h.1 h.2)
  refine ⟨?_, ?_, ?_⟩
  · intro m hm
    rw [hdata] at hm
    have hmS : m ∈ S := (List.take_sublist _ _).subset hm
    have hmF : m ∈ F := hperm.mem_iff.mp hmS
    exact (mem_matchingMsgs.mp (hF ▸ hmF)).2
  · rw [hdata]
    exact hstrict.sublist (List.take_sublist _ _)
  · intro m hmdb hsc hcc
    have hmF : m ∈ F := hF ▸ mem_matchingMsgs.mpr ⟨hmdb, hsc, hcc⟩
    have hmS : m ∈ S := hperm.mem_iff.mpr hmF
    rw [← List.take_append_drop limit S] at hmS
    rcases List.mem_append.mp hmS with hin | hdrop
    · left
      rw [hdata]
      exact hin
    · right
      have hdropne : S.drop limit ≠ [] := List.ne_nil_of_mem hdrop
      have hlt : limit < S.length := by
        by_contra hle
        exact hdropne (List.drop_eq_nil_of_le (by omega))
      constructor
      · rw [hdata, List.length_take]
        omega
      · intro a ha
        rw [hdata] at ha
        have hcross := (List.pairwise_append.mp
          ((List.take_append_drop limit S) ▸ hstrict)).2.2
        exact hcross a ha m hdrop

/-- Witness for C4 at a concrete inbox, cursor and page size. -/
theorem c4_cursor_window_witness :
    (∀ m ∈ (findAll [⟨"m1", "u1", "u2", "x", 10⟩, ⟨"m2", "u2", "u1", "y", 20⟩,
        ⟨"m3", "u1", "u3", "z", 30⟩, ⟨"m4", "u3", "u1", "w", 40⟩] "u1"
        (some (30, "m3")) 1 SortDir.desc).data,
      inScope "u1" m ∧ cursorCond SortDir.desc 30 "m3" m) ∧
    (findAll [⟨"m1", "u1", "u2", "x", 10⟩, ⟨"m2", "u2", "u1", "y", 20⟩,
        ⟨"m3", "u1", "u3", "z", 30⟩, ⟨"m4", "u3", "u1", "w", 40⟩] "u1"
        (some (30, "m3")) 1 SortDir.desc).data.Pairwise (strictKey SortDir.desc) ∧
    (∀ m ∈ [⟨"m1", "u1", "u2", "x", 10⟩, ⟨"m2", "u2", "u1", "y", 20⟩,
        ⟨"m3", "u1", "u3", "z", 30⟩, ⟨"m4", "u3", "u1", "w", 40⟩],
      inScope "u1" m → cursorCond SortDir.desc 30 "m3" m →
      m ∈ (findAll [⟨"m1", "u1", "u2", "x", 10⟩, ⟨"m2", "u2", "u1", "y", 20⟩,
          ⟨"m3", "u1", "u3", "z", 30⟩, ⟨"m4", "u3", "u1", "w", 40⟩] "u1"
          (some (30, "m3")) 1 SortDir.desc).data ∨
        ((findAll [⟨"m1", "u1", "u2", "x", 10⟩, ⟨"m2", "u2", "u1", "y", 20⟩,
            ⟨"m3", "u1", "u3", "z", 30⟩, ⟨"m4", "u3", "u1", "w", 40⟩] "u1"
            (some (30, "m3")) 1 SortDir.desc).data.length = 1 ∧
          ∀ a ∈ (findAll [⟨"m1", "u1", "u2", "x", 10⟩, ⟨"m2", "u2", "u1", "y", 20⟩,
              ⟨"m3", "u1", "u3", "z", 30⟩, ⟨"m4", "u3", "u1", "w", 40⟩] "u1"
              (some (30, "m3")) 1 SortDir.desc).data,
            strictKey SortDir.desc a m)) :=
  c4_cursor_window SortDir.desc
    [⟨"m1", "u1", "u2", "x", 10⟩, ⟨"m2", "u2", "u1", "y", 20⟩,
     ⟨"m3", "u1", "u3", "z", 30⟩, ⟨"m4", "u3", "u1", "w", 40⟩]
    "u1" 30 "m3" 1 (by decide)

/-- Claim C5 (spec-modelled `findAll`): the engine probes `limit + 1`
rows, so `hasMore` is true exactly when more than `limit` rows match and
the extra row is dropped (the page keeps `min limit total` rows);
`nextCursor` is derived from the last retained row and is `none` when
`hasMore` is false; `prevCursor` is derived from the first retained row
and is non-`none` whenever the page holds at least one row, including on
a cursorless first page. -/
theorem c5_page_probe_meta (db : List Msg) (userId : String)
    (cursor : Option (Nat × String)) (limit : Nat) (sort : SortDir)
    (hl : 1 ≤ limit) :
    ((findAll db userId cursor limit sort).meta.hasMore = true ↔
      limit < (matchingMsgs db userId cursor sort).length) ∧
    (findAll db userId cursor limit sort).data.length =
      min limit (matchingMsgs db userId cursor sort).length ∧
    (findAll db userId cursor limit sort).meta.count =
      (findAll db userId cursor limit sort).data.length ∧
    (findAll db userId cursor limit sort).meta.limit = limit ∧
    ((findAll db userId cursor limit sort).meta.hasMore = false →
      (findAll db userId cursor limit sort).meta.nextCursor = none) ∧
    ((findAll db userId cursor limit sort).meta.hasMore = true →
      ∃ lastRow, (findAll db userId cursor limit sort).data.getLast? = some lastRow ∧
        (findAll db userId cursor limit sort).meta.nextCursor =
          some (encodeCursor lastRow)) ∧
    ((findAll db userId cursor limit sort).data ≠ [] →
      ∃ firstRow, (findAll db userId cursor limit sort).data.head? = some firstRow ∧
        (findAll db userId cursor limit sort).meta.prevCursor =
          some (encodeCursor firstRow)) ∧
    ((findAll db userId cursor limit sort).data = [] ↔
      matchingMsgs db userId cursor sort = []) := by
  have hperm := List.perm_insertionSort (msgRel sort) (matchingMsgs db userId cursor sort)
  set F := matchingMsgs db userId cursor sort with hF
  set S := List.insertionSort (msgRel sort) F with hS
  have hSF : S.length = F.length := hperm.length_eq
  have hdata := findAll_data_eq db userId cursor limit sort
  rw [← hF, ← hS] at hdata
  have hdatalen : (findAll db userId cursor limit sort).data.length = min limit F.length := by
    rw [hdata, List.length_take, hSF]
  have hmore : (findAll db userId cursor limit sort).meta.hasMore =
      decide ((S.take (limit + 1)).length = limit + 1) := by
    simp only [findAll]
  have hmore_iff : (findAll db userId cursor limit sort).meta.hasMore = true ↔
      limit < F.length := by
    rw [hmore]
    simp only [decide_eq_true_eq, List.length_take]
    omega
  have hnext : (findAll db userId cursor limit sort).meta.nextCursor =
      (if decide ((S.take (limit + 1)).length = limit + 1) = true then
        (findAll db userId cursor limit sort).data.getLast?.map encodeCursor else none) := by
    rw [hdata]
    simp only [findAll]
    rw [← hF, ← hS]
    rw [List.take_take]
    have hmin : limit ⊓ (limit + 1) = limit := by omega
    rw [hmin]
  have hprev : (findAll db userId cursor limit sort).meta.prevCursor =
      (findAll db userId cursor limit sort).data.head?.map encodeCursor := by
    rw [hdata]
    simp only [findAll]
    rw [← hF, ← hS]
    rw [List.take_take]
    have hmin : limit ⊓ (limit + 1) = limit := by omega
    rw [hmin]
  refine ⟨hmore_iff, hdatalen, ?_, ?_, ?_, ?_, ?_, ?_⟩
  · simp only [findAll]
  · simp only [findAll]
  · intro h0
    rw [hmore] at h0
    rw [hnext, h0]
    rfl
  · intro h1
    have hlt : limit < F.length := hmore_iff.mp h1
    have hne : (findAll db userId cursor limit sort).data ≠ [] := by
      intro he
      rw [he] at hdatalen
      simp at hdatalen
      omega
    refine ⟨(findAll db userId cursor limit sort).data.getLast hne,
      List.getLast?_eq_getLast _ hne, ?_⟩
    rw [hmore] at h1
    rw [hnext, h1, if_pos rfl, List.getLast?_eq_getLast _ hne]
    rfl
  · intro hne
    refine ⟨(findAll db userId cursor limit sort).data.head hne,
      List.head?_eq_head hne, ?_⟩
    rw [hprev, List.head?_eq_head hne]
    rfl
  · constructor
    · intro he
      rw [he] at hdatalen
      simp at hdatalen
      have hF0 : F.length = 0 := by omega
      exact List.length_eq_zero.mp hF0
    · intro he
      have hF0 : F.length = 0 := by rw [he]; rfl
      have h2 : (findAll db userId cursor limit sort).data.length = 0 := by
        rw [hdatalen, hF0]
        omega
      exact List.length_eq_zero.mp h2

/-- Witness for C5 on a concrete cursorless first page with two matching
rows and `limit = 1`: `hasMore`, dropped extra row, `nextCursor` from the
last retained row, `prevCursor` present on the first page. -/
theorem c5_page_probe_meta_witness :
    ((findAll [⟨"m1", "u1", "u2", "x", 10⟩, ⟨"m2", "u2", "u1", "y", 20⟩] "u1"
        none 1 SortDir.desc).meta.hasMore = true ↔
      1 < (matchingMsgs [⟨"m1", "u1", "u2", "x", 10⟩, ⟨"m2", "u2", "u1", "y", 20⟩] "u1"
        none SortDir.desc).length) ∧
    (findAll [⟨"m1", "u1", "u2", "x", 10⟩, ⟨"m2", "u2", "u1", "y", 20⟩] "u1"
        none 1 SortDir.desc).data.length =
      min 1 (matchingMsgs [⟨"m1", "u1", "u2", "x", 10⟩, ⟨"m2", "u2", "u1", "y", 20⟩] "u1"
        none SortDir.desc).length ∧
    (findAll [⟨"m1", "u1", "u2", "x", 10⟩, ⟨"m2", "u2", "u1", "y", 20⟩] "u1"
        none 1 SortDir.desc).meta.count =
      (findAll [⟨"m1", "u1", "u2", "x", 10⟩, ⟨"m2", "u2", "u1", "y", 20⟩] "u1"
        none 1 SortDir.desc).data.length ∧
    (findAll [⟨"m1", "u1", "u2", "x", 10⟩, ⟨"m2", "u2", "u1", "y", 20⟩] "u1"
        none 1 SortDir.desc).meta.limit = 1 ∧
    ((findAll [⟨"m1", "u1", "u2", "x", 10⟩, ⟨"m2", "u2", "u1", "y", 20⟩] "u1"
        none 1 SortDir.desc).meta.hasMore = false →
      (findAll [⟨"m1", "u1", "u2", "x", 10⟩, ⟨"m2", "u2", "u1", "y", 20⟩] "u1"
        none 1 SortDir.desc).meta.nextCursor = none) ∧
    ((findAll [⟨"m1", "u1", "u2", "x", 10⟩, ⟨"m2", "u2", "u1", "y", 20⟩] "u1"
        none 1 SortDir.desc).meta.hasMore = true →
      ∃ lastRow, (findAll [⟨"m1", "u1", "u2", "x", 10⟩, ⟨"m2", "u2", "u1", "y", 20⟩] "u1"
          none 1 SortDir.desc).data.getLast? = some lastRow ∧
        (findAll [⟨"m1", "u1", "u2", "x", 10⟩, ⟨"m2", "u2", "u1", "y", 20⟩] "u1"
          none 1 SortDir.desc).meta.nextCursor = some (encodeCursor lastRow)) ∧
    ((findAll [⟨"m1", "u1", "u2", "x", 10⟩, ⟨"m2", "u2", "u1", "y", 20⟩] "u1"
        none 1 SortDir.desc).data ≠ [] →
      ∃ firstRow, (findAll [⟨"m1", "u1", "u2", "x", 10⟩, ⟨"m2", "u2", "u1", "y", 20⟩] "u1"
          none 1 SortDir.desc).data.head? = some firstRow ∧
        (findAll [⟨"m1", "u1", "u2", "x", 10⟩, ⟨"m2", "u2", "u1", "y", 20⟩] "u1"
          none 1 SortDir.desc).meta.prevCursor = some (encodeCursor firstRow)) ∧
    ((findAll [⟨"m1", "u1", "u2", "x", 10⟩, ⟨"m2", "u2", "u1", "y", 20⟩] "u1"
        none 1 SortDir.desc).data = [] ↔
      matchingMsgs [⟨"m1", "u1", "u2", "x", 10⟩, ⟨"m2", "u2", "u1", "y", 20⟩] "u1"
        none SortDir.desc = []) :=
  c5_page_probe_meta [⟨"m1", "u1", "u2", "x", 10⟩, ⟨"m2", "u2", "u1", "y", 20⟩]
    "u1" none 1 SortDir.desc (by decide)

end Chat
